import Mathlib

/-!
Verification development for `get-memberships.py`, a GitLab membership
audit tool.  The script walks a group hierarchy, aggregates direct user
memberships and group-to-group shares per scope (group or project), and
renders a narrative text report plus an optional JSON snapshot.

The embedding below is a shallow model of the script's pure logic:
the module-level `ACCESS_LEVELS` table, the recursive subgroup walker
`get_all_groups`, the by-name group resolver, and the reporting loop of
`get_memberships` (lines 112-180 of the source).  External API fetches
are abstracted into a snapshot: a list of scopes paired with the raw
membership records the API returned for them, in visitation order.
Python's stdout/stderr are modelled as two lists of output items;
uncaught Python exceptions (KeyError on the access-level table,
NameError on an unbound local) are modelled with `Except`.
-/

set_option autoImplicit false

namespace GitlabUtils

/-- The module-level access-level table of the script (lines 10-16):
`{10: "Guest access", ..., 50: "Owner access"}`.  A lookup of a key not
in the table is a Python `KeyError`, modelled by `none`. -/
def ACCESS_LEVELS (n : Nat) : Option String :=
  if n = 10 then some "Guest access"
  else if n = 20 then some "Reporter access"
  else if n = 30 then some "Developer access"
  else if n = 40 then some "Maintainer access"
  else if n = 50 then some "Owner access"
  else none

/-! ## The tree walker (`get_all_groups`, lines 18-26)

The GitLab API serves, for each group id, the list of its immediate
subgroups.  Since the hierarchy is acyclic and finite we model the part
of it reachable from a group as a rose tree: a node is a group id
together with the subgroup list the API returns for it.  -/

/-- A group node: its id and the subtrees of its immediate subgroups,
in the order the API lists them. -/
inductive GTree : Type where
  | node : Nat → List GTree → GTree

/-- The id of a group node. -/
def GTree.rootId : GTree → Nat
  | .node i _ => i

/-- The immediate subgroup subtrees of a group node. -/
def GTree.children : GTree → List GTree
  | .node _ cs => cs

/-- The loop body of `get_all_groups` over a subgroup list: for each
subgroup, append it and then extend with the recursive walk of its own
subgroups (`groups.append(group); groups.extend(get_all_groups(gl, group.id))`). -/
def walkForest : List GTree → List Nat
  | [] => []
  | GTree.node i ccs :: cs => (i :: walkForest ccs) ++ walkForest cs

/-- `get_all_groups(gl, group_id)`: recursively collect all subgroups of
a group (the root itself is not included; the caller prepends it at
line 78 of the source). -/
def get_all_groups (t : GTree) : List Nat :=
  walkForest t.children

/-- Preorder listing of all ids in a forest: each root before its own
descendants, each subtree finished before the next sibling. -/
def forestIds : List GTree → List Nat
  | [] => []
  | GTree.node i ccs :: cs => i :: (forestIds ccs ++ forestIds cs)

/-- All ids of a tree, root included, in preorder. -/
def GTree.allIds (t : GTree) : List Nat :=
  t.rootId :: forestIds t.children

/-! ## The group resolver (lines 57-76) -/

/-- The attributes of a group record returned by `gl.groups.list`. -/
structure GroupRec where
  name : String
  id : Nat
  deriving DecidableEq

/-- `[g for g in all_groups if g.attributes['name'] == group]` (line 60). -/
def findBaseGroups (all_groups : List GroupRec) (group : String) : List GroupRec :=
  all_groups.filter (fun g => g.name == group)

/-- Message printed when several groups carry the requested name (line 63). -/
def multipleMsg (group : String) : String :=
  "Multiple groups with name " ++ group ++ " are found, the group name must be unique!"

/-- Candidate line printed per ambiguous match in verbose mode (line 66). -/
def candidateLine (g : GroupRec) : String :=
  "\t" ++ g.name ++ " with id " ++ toString g.id

/-- Message printed when no group carries the requested name (line 75). -/
def notFoundMsg (group : String) : String :=
  "Group name " ++ group ++ " could not be found."

/-- Outcome of the by-name resolution phase: either the resolved base
group, or the messages printed (to the narrative stream and to stderr)
together with the process exit code passed to `sys.exit`. -/
def resolvePhase (all_groups : List GroupRec) (group : String) (verbose : Bool) :
    Except (List String × List String × Nat) GroupRec :=
  let base_groups := findBaseGroups all_groups group
  if base_groups.length > 1 then
    .error ([multipleMsg group], if verbose then base_groups.map candidateLine else [], 1)
  else
    match base_groups with
    | [] => .error ([notFoundMsg group], [], 1)
    | g :: _ => .ok g

/-! ## The reporting loop of `get_memberships` (lines 112-180)

The fetch phase (lines 81-109) fills the `memberships` dict: each key is
a scope (the base group, a subgroup, or a group project) and each value
is the list of raw membership records the API returned for it — user
member objects, group-share dicts, or anything else.  We take that dict,
in insertion (= visitation) order, as the input snapshot. -/

/-- The kind of a scope key in the `memberships` dict: a `GroupProject`
or a group (line 119 `isinstance(key, GroupProject)`). -/
inductive ScopeKind : Type where
  | group : ScopeKind
  | project : ScopeKind
  deriving DecidableEq

/-- Attributes of a scope used by the reporting loop: `name`, `id`, and
`full_path` (groups) / `path_with_namespace` (projects). -/
structure Scope : Type where
  kind : ScopeKind
  name : String
  path : String
  id : Nat
  deriving DecidableEq

/-- A raw membership record as returned by the API:
a `GroupMember`/`ProjectMember` object (username, display name, access
level), a group-share dict (`group_name`, `group_full_path`,
`group_access_level`), or some other value (line 149 `else` branch),
carried as an uninterpreted payload string. -/
inductive RawMember : Type where
  | user : String → String → Nat → RawMember
  | share : String → String → Nat → RawMember
  | other : String → RawMember
  deriving DecidableEq

/-- The identity key the loop computes into the local `name`: username
for user members, group name for shares, the literal `unknown` for
unrecognised records. -/
def keyOf : RawMember → String
  | .user username _ _ => username
  | .share group_name _ _ => group_name
  | .other _ => "unknown"

/-- CLI configuration relevant to the reporting loop. -/
structure Config : Type where
  user : Option String
  shared_group : Option String
  json_output : Bool
  verbose : Bool
  deriving DecidableEq

/-- Python truthiness of an `Option String` CLI value: `None` and the
empty string are falsy. -/
def truthy : Option String → Bool
  | none => false
  | some s => !(s == "")

/-- `not (user or shared_group)` (lines 135, 165): no truthy filter. -/
def unfilteredMode (c : Config) : Bool :=
  !(truthy c.user || truthy c.shared_group)

/-- `(user and user == name) or (shared_group and shared_group == name)`
(line 162). -/
def matchFilter (c : Config) (name : String) : Bool :=
  (match c.user with
   | some u => !(u == "") && (u == name)
   | none => false)
  ||
  (match c.shared_group with
   | some s => !(s == "") && (s == name)
   | none => false)

/-- Value stored in `member_dict[scope_name]['members'][name]`
(lines 154-159). -/
structure MemberEntry : Type where
  type : String
  full_name : Option String
  access_level : Option String
  details : Option String
  deriving DecidableEq

/-- Value stored in `member_dict[scope_name]` (lines 130-133). -/
structure ScopeEntry : Type where
  type : String
  id : Nat
  members : List (String × MemberEntry)
  deriving DecidableEq

/-- Python dict assignment `d[k] = v` on an insertion-ordered dict:
overwrite in place if the key exists, else append. -/
def dictInsert {β : Type} (k : String) (v : β) : List (String × β) → List (String × β)
  | [] => [(k, v)]
  | (k', v') :: rest => if k' == k then (k, v) :: rest else (k', v') :: dictInsert k v rest

/-- Python dict lookup `d[k]`. -/
def dictFind {β : Type} (k : String) : List (String × β) → Option β
  | [] => none
  | (k', v') :: rest => if k' == k then some v' else dictFind k rest

/-- An item on one of the process output streams: a plain printed line,
or the final `json.dumps(member_dict, indent=2)` payload, kept
structured. -/
inductive Out : Type where
  | text : String → Out
  | json : List (String × ScopeEntry) → Out
  deriving DecidableEq

/-- An uncaught Python exception aborting the run: `KeyError` from an
`ACCESS_LEVELS[...]` lookup (lines 143, 148), or `NameError` from
reading `full_name`/`access_level` before any user/share record bound
them (lines 164, 166). -/
inductive RunError : Type where
  | keyError : RunError
  | nameError : RunError
  deriving DecidableEq

/-- State of the reporting loop: the loop-carried locals `full_name` and
`access_level` (unbound = `none`), the accumulators `all_members` and
`member_dict`, the current scope's fresh `members` sub-dict and
`print_msgs` list, and the two output streams. -/
structure St : Type where
  full_name : Option String
  access_level : Option String
  all_members : List String
  member_dict : List (String × ScopeEntry)
  scopeMembers : List (String × MemberEntry)
  print_msgs : List String
  out1 : List Out
  out2 : List Out
  deriving DecidableEq

/-- The initial state at line 113-114. -/
def initSt : St :=
  { full_name := none, access_level := none, all_members := [], member_dict := []
  , scopeMembers := [], print_msgs := [], out1 := [], out2 := [] }

/-- `print(..., file=print_outputs)`: stderr when `--json-output` is
set, stdout otherwise (lines 42-45). -/
def emit (c : Config) (st : St) (lines : List String) : St :=
  if c.json_output then { st with out2 := st.out2 ++ lines.map Out.text }
  else { st with out1 := st.out1 ++ lines.map Out.text }

/-- The scope tag put in the local `t` (lines 119-124): note the leading
newline for groups. -/
def scopeT (sc : Scope) : String :=
  match sc.kind with
  | .project => "Project"
  | .group => "\nGroup"

/-- `t.strip('\n')` as used for `member_dict[...]['type']` (line 131). -/
def scopeTypeName (sc : Scope) : String :=
  match sc.kind with
  | .project => "Project"
  | .group => "Group"

/-- Header for a scope with memberships in unfiltered mode (line 136). -/
def scopeHeader (sc : Scope) : String :=
  scopeT sc ++ " " ++ sc.name ++ " (" ++ sc.path ++ ") with id " ++ toString sc.id ++
    " has the following memberships ==>"

/-- Header announcing a matching membership (line 163). -/
def matchHeader (sc : Scope) : String :=
  scopeT sc ++ " " ++ sc.name ++ " with id " ++ toString sc.id ++
    " has a matching membership ==>"

/-- The membership line rendered at lines 164/166. -/
def memberLine (full_name access_level : String) : String :=
  "\t" ++ full_name ++ " has " ++ access_level ++ "."

/-- Verbose notice for a scope without (matching) memberships
(line 173). -/
def noMembershipsLine (c : Config) (sc : Scope) : String :=
  scopeT sc ++ " " ++ sc.name ++ " with id " ++ toString sc.id ++ " does not have " ++
    (if truthy c.user then "matching " else "") ++ "memberships"

/-- `print('Unknown type: ', m)` (line 152): printed to stdout
unconditionally — the call has no `file=` argument. -/
def unknownTypeLine (payload : String) : String :=
  "Unknown type:  " ++ payload

/-- Lexicographic code-point comparison of two character lists:
`charsLe a b` is true when `a` is, as a sequence of code points, less
than or equal to `b`.  This is the order Python's `sorted` uses on
strings. -/
def charsLe : List Char → List Char → Bool
  | [], _ => true
  | _ :: _, [] => false
  | c :: cs, d :: ds =>
    if c.toNat < d.toNat then true
    else if d.toNat < c.toNat then false
    else charsLe cs ds

/-- Python's `<=` on strings: lexicographic by code point. -/
def strLe (a b : String) : Bool :=
  charsLe a.data b.data

/-- Python's `sorted` on a list of strings. -/
def pySorted (l : List String) : List String :=
  List.insertionSort (fun a b => strLe a b = true) l

/-- Process one membership record `m` of the scope `sc` (the body of the
`for m in memberships[key]` loop, lines 137-166). -/
def step (c : Config) (sc : Scope) (st : St) (m : RawMember) : Except RunError St :=
  match m with
  | .user username realname lvl =>
    match ACCESS_LEVELS lvl with
    | none => .error .keyError
    | some acc =>
      let f := realname ++ " (" ++ username ++ ")"
      let st := { st with
        full_name := some f, access_level := some acc
        scopeMembers := dictInsert username ⟨"user", some f, some acc, none⟩ st.scopeMembers
        all_members := st.all_members ++ [username] }
      if matchFilter c username then
        .ok (emit c st [matchHeader sc, memberLine f acc])
      else if unfilteredMode c then
        .ok { st with print_msgs := st.print_msgs ++ [memberLine f acc] }
      else
        .ok st
  | .share group_name group_full_path lvl =>
    match ACCESS_LEVELS lvl with
    | none => .error .keyError
    | some acc =>
      let f := group_name ++ " (" ++ group_full_path ++ ")"
      let st := { st with
        full_name := some f, access_level := some acc
        scopeMembers := dictInsert group_name ⟨"group", some f, some acc, none⟩ st.scopeMembers
        all_members := st.all_members ++ [group_name] }
      if matchFilter c group_name then
        .ok (emit c st [matchHeader sc, memberLine f acc])
      else if unfilteredMode c then
        .ok { st with print_msgs := st.print_msgs ++ [memberLine f acc] }
      else
        .ok st
  | .other payload =>
    let st := { st with
      out1 := st.out1 ++ [Out.text (unknownTypeLine payload)]
      scopeMembers := dictInsert "unknown" ⟨"unknown", none, none, some payload⟩ st.scopeMembers
      all_members := st.all_members ++ ["unknown"] }
    if matchFilter c "unknown" then
      let st := emit c st [matchHeader sc]
      match st.full_name, st.access_level with
      | some f, some acc => .ok (emit c st [memberLine f acc])
      | _, _ => .error .nameError
    else if unfilteredMode c then
      match st.full_name, st.access_level with
      | some f, some acc => .ok { st with print_msgs := st.print_msgs ++ [memberLine f acc] }
      | _, _ => .error .nameError
    else
      .ok st

/-- Run `step` over all records of one scope. -/
def stepList (c : Config) (sc : Scope) : St → List RawMember → Except RunError St
  | st, [] => .ok st
  | st, m :: ms =>
    match step c sc st m with
    | .error e => .error e
    | .ok st' => stepList c sc st' ms

/-- Process one scope of the `memberships` dict (the body of the
`for key in memberships` loop, lines 115-173): reset the per-scope
accumulators, record the scope entry, print the header and per-member
output, then flush `sorted(print_msgs)`. -/
def processScope (c : Config) (st : St) (sc : Scope) (ms : List RawMember) :
    Except RunError St :=
  let st := { st with scopeMembers := [], print_msgs := [] }
  match ms with
  | [] =>
    let st := { st with
      member_dict := dictInsert sc.name ⟨scopeTypeName sc, sc.id, []⟩ st.member_dict }
    if c.verbose then .ok (emit c st [noMembershipsLine c sc]) else .ok st
  | _ :: _ =>
    let st := if unfilteredMode c then emit c st [scopeHeader sc] else st
    match stepList c sc st ms with
    | .error e => .error e
    | .ok st' =>
      let st' := { st' with
        member_dict :=
          dictInsert sc.name ⟨scopeTypeName sc, sc.id, st'.scopeMembers⟩ st'.member_dict }
      .ok (emit c st' (pySorted st'.print_msgs))

/-- The loop over all scopes. -/
def scopesLoop (c : Config) : St → List (Scope × List RawMember) → Except RunError St
  | st, [] => .ok st
  | st, (sc, ms) :: rest =>
    match processScope c st sc ms with
    | .error e => .error e
    | .ok st' => scopesLoop c st' rest

/-- The trailer list: `sorted(list(set(all_members)))` (line 176). -/
def trailerList (all_members : List String) : List String :=
  pySorted all_members.dedup

/-- The whole reporting phase (lines 112-180): process every scope,
print the deduplicated sorted trailer, and in JSON mode dump
`member_dict` to stdout. -/
def get_memberships_report (c : Config) (snapshot : List (Scope × List RawMember)) :
    Except RunError St :=
  match scopesLoop c initSt snapshot with
  | .error e => .error e
  | .ok st =>
    let st := emit c st
      ("\nTotal list of users / shared groups in this scope:" ::
        (trailerList st.all_members).map (fun m => "\t" ++ m))
    if c.json_output then .ok { st with out1 := st.out1 ++ [Out.json st.member_dict] }
    else .ok st

/-- The narrative (`print_outputs`) stream of a final state: stderr when
`--json-output` is set, stdout otherwise. -/
def narrStream (c : Config) (st : St) : List Out :=
  if c.json_output then st.out2 else st.out1

/-- The stdout stream of a run (empty when the run died on an uncaught
exception before printing — the traceback itself goes to stderr). -/
def stdoutOf : Except RunError St → List Out
  | .ok st => st.out1
  | .error _ => []

/-- Did the run finish without an uncaught exception (process exit
code 0)? -/
def runOk : Except RunError St → Bool
  | .ok _ => true
  | .error _ => false

/-- A record the loop classifies as a user member or a group share with
an access level present in `ACCESS_LEVELS` — i.e. one that is rendered
without raising and without touching stale loop locals. -/
def wellFormed : RawMember → Bool
  | .user _ _ lvl => (ACCESS_LEVELS lvl).isSome
  | .share _ _ lvl => (ACCESS_LEVELS lvl).isSome
  | .other _ => false

/-- The display form the loop computes into the local `full_name`
(lines 142, 147): only meaningful for user/share records. -/
def fullNameOf : RawMember → String
  | .user username realname _ => realname ++ " (" ++ username ++ ")"
  | .share group_name group_full_path _ => group_name ++ " (" ++ group_full_path ++ ")"
  | .other _ => "unknown"

/-- The access-level label the loop computes into the local
`access_level` (lines 143, 148): only meaningful for user/share records
whose level is in the table. -/
def accOf : RawMember → String
  | .user _ _ lvl => (ACCESS_LEVELS lvl).getD ""
  | .share _ _ lvl => (ACCESS_LEVELS lvl).getD ""
  | .other _ => ""

/-- The structured entry written for a record (lines 154-159). -/
def entryOf : RawMember → MemberEntry
  | .user username realname lvl =>
      ⟨"user", some (fullNameOf (.user username realname lvl)),
        some (accOf (.user username realname lvl)), none⟩
  | .share gn gp lvl =>
      ⟨"group", some (fullNameOf (.share gn gp lvl)), some (accOf (.share gn gp lvl)), none⟩
  | .other payload => ⟨"unknown", none, none, some payload⟩

/-- The narrative line the loop renders for a user/share record
(lines 164, 166). -/
def renderLine (m : RawMember) : String :=
  memberLine (fullNameOf m) (accOf m)

/-- Snapshot-wise filters and fixtures used in the statements below. -/
def SnapPerm (s1 s2 : List (Scope × List RawMember)) : Prop :=
  List.Forall₂ (fun p q => p.1 = q.1 ∧ p.2.Perm q.2) s1 s2

/-- Every record of every scope of the snapshot is well formed. -/
def snapWF (s : List (Scope × List RawMember)) : Bool :=
  s.all (fun p => p.2.all wellFormed)

/-! ### Concrete fixtures used by witnesses and counterexamples -/

/-- Unfiltered text-mode configuration: no filters, no json, not verbose. -/
def unfCfg : Config := ⟨none, none, false, false⟩

/-- JSON-mode configuration: no filters, `--json-output`, not verbose. -/
def jsonCfg : Config := ⟨none, none, true, false⟩

/-- A root group scope. -/
def demoGroup : Scope := ⟨.group, "Eng", "eng", 1⟩

/-- A subgroup scope. -/
def demoSub : Scope := ⟨.group, "Core", "eng/core", 2⟩

/-- One scope whose membership list holds a valid user record followed
by a malformed record. -/
def mixedSnap : List (Scope × List RawMember) :=
  [(demoGroup, [RawMember.user "bob" "Bob" 30, RawMember.other "weird"])]

/-- One scope whose only membership record is malformed. -/
def crashSnap : List (Scope × List RawMember) := [(demoGroup, [RawMember.other "garbage"])]

/-- Two scopes of different kind and id sharing the bare name `X`. -/
def dupFst : Scope := ⟨.group, "X", "x", 41⟩

/-- See `dupFst`. -/
def dupSnd : Scope := ⟨.project, "X", "p/x", 42⟩

/-- A membership list and a reordering of it (valid user first vs. the
malformed record first). -/
def ordMsA : List RawMember := [RawMember.user "bob" "Bob" 30, RawMember.other "X"]

/-- See `ordMsA`. -/
def ordMsB : List RawMember := [RawMember.other "X", RawMember.user "bob" "Bob" 30]

/-- Two-scope snapshots identical except for the member order inside the
second scope. -/
def ordSnapA : List (Scope × List RawMember) :=
  [(demoGroup, [RawMember.user "alice" "Alice" 40]), (demoSub, ordMsA)]

/-- See `ordSnapA`. -/
def ordSnapB : List (Scope × List RawMember) :=
  [(demoGroup, [RawMember.user "alice" "Alice" 40]), (demoSub, ordMsB)]

/-- A single-scope snapshot of two valid user records, and the same
snapshot with the members swapped. -/
def wfSnapA : List (Scope × List RawMember) :=
  [(demoGroup, [RawMember.user "alice" "Alice" 40, RawMember.user "bob" "Bob" 30])]

/-- See `wfSnapA`. -/
def wfSnapB : List (Scope × List RawMember) :=
  [(demoGroup, [RawMember.user "bob" "Bob" 30, RawMember.user "alice" "Alice" 40])]

/-! ## General lemmas -/

theorem walkForest_eq_forestIds : (cs : List GTree) → walkForest cs = forestIds cs
  | [] => by rw [walkForest, forestIds]
  | GTree.node i ccs :: cs => by
      rw [walkForest, forestIds, walkForest_eq_forestIds ccs, walkForest_eq_forestIds cs,
        List.cons_append]

theorem charsLe_total : ∀ a b : List Char, charsLe a b = true ∨ charsLe b a = true
  | [], b => by left; cases b <;> rw [charsLe]
  | a :: as, [] => by right; rw [charsLe]
  | a :: as, b :: bs => by
    rcases Nat.lt_trichotomy a.toNat b.toNat with h | h | h
    · left; rw [charsLe, if_pos h]
    · have h1 : ¬ a.toNat < b.toNat := by omega
      have h2 : ¬ b.toNat < a.toNat := by omega
      rw [charsLe, if_neg h1, if_neg h2, charsLe, if_neg h2, if_neg h1]
      exact charsLe_total as bs
    · right; rw [charsLe, if_pos h]

theorem charsLe_trans : ∀ a b c : List Char,
    charsLe a b = true → charsLe b c = true → charsLe a c = true
  | [], _, c, _, _ => by cases c <;> rw [charsLe]
  | a :: as, [], _, hab, _ => by rw [charsLe] at hab; exact absurd hab (by simp)
  | a :: as, b :: bs, [], _, hbc => by rw [charsLe] at hbc; exact absurd hbc (by simp)
  | a :: as, b :: bs, c :: cs, hab, hbc => by
    rw [charsLe] at hab hbc ⊢
    by_cases h1 : a.toNat < b.toNat <;> by_cases h2 : b.toNat < c.toNat
    · rw [if_pos (by omega)]
    · rw [if_neg h2] at hbc
      by_cases h3 : c.toNat < b.toNat
      · rw [if_pos h3] at hbc; exact absurd hbc (by simp)
      · rw [if_pos (by omega)]
    · rw [if_neg h1] at hab
      by_cases h3 : b.toNat < a.toNat
      · rw [if_pos h3] at hab; exact absurd hab (by simp)
      · rw [if_pos (by omega)]
    · rw [if_neg h1] at hab
      by_cases h3 : b.toNat < a.toNat
      · rw [if_pos h3] at hab; exact absurd hab (by simp)
      · rw [if_neg h3] at hab
        rw [if_neg h2] at hbc
        by_cases h4 : c.toNat < b.toNat
        · rw [if_pos h4] at hbc; exact absurd hbc (by simp)
        · rw [if_neg h4] at hbc
          rw [if_neg (by omega), if_neg (by omega)]
          exact charsLe_trans as bs cs hab hbc

theorem charsLe_antisymm : ∀ a b : List Char,
    charsLe a b = true → charsLe b a = true → a = b
  | [], [], _, _ => rfl
  | [], b :: bs, _, hba => by rw [charsLe] at hba; exact absurd hba (by simp)
  | a :: as, [], hab, _ => by rw [charsLe] at hab; exact absurd hab (by simp)
  | a :: as, b :: bs, hab, hba => by
    rw [charsLe] at hab hba
    by_cases h1 : a.toNat < b.toNat
    · rw [if_neg (by omega), if_pos h1] at hba; exact absurd hba (by simp)
    · by_cases h2 : b.toNat < a.toNat
      · rw [if_neg h1, if_pos h2] at hab; exact absurd hab (by simp)
      · rw [if_neg h1, if_neg h2] at hab
        rw [if_neg h2, if_neg h1] at hba
        have hc : a = b := by
          have hn : a.toNat = b.toNat := by omega
          have hx := congrArg Char.ofNat hn
          rwa [Char.ofNat_toNat, Char.ofNat_toNat] at hx
        rw [hc, charsLe_antisymm as bs hab hba]

theorem strLe_total (a b : String) : strLe a b = true ∨ strLe b a = true :=
  charsLe_total a.data b.data

theorem strLe_trans {a b c : String} (h1 : strLe a b = true) (h2 : strLe b c = true) :
    strLe a c = true :=
  charsLe_trans a.data b.data c.data h1 h2

theorem strLe_antisymm {a b : String} (h1 : strLe a b = true) (h2 : strLe b a = true) :
    a = b := by
  cases a with
  | mk da => cases b with
    | mk db => exact congrArg String.mk (charsLe_antisymm da db h1 h2)

instance : IsTotal String (fun a b => strLe a b = true) := ⟨strLe_total⟩

instance : IsTrans String (fun a b => strLe a b = true) := ⟨fun _ _ _ => strLe_trans⟩

instance : IsAntisymm String (fun a b => strLe a b = true) := ⟨fun _ _ => strLe_antisymm⟩

theorem pySorted_sorted (l : List String) :
    List.Sorted (fun a b => strLe a b = true) (pySorted l) :=
  List.sorted_insertionSort _ l

theorem pySorted_perm (l : List String) : (pySorted l).Perm l :=
  List.perm_insertionSort _ l

theorem pySorted_eq_of_perm {l1 l2 : List String} (h : l1.Perm l2) :
    pySorted l1 = pySorted l2 :=
  List.eq_of_perm_of_sorted ((pySorted_perm l1).trans (h.trans (pySorted_perm l2).symm))
    (pySorted_sorted l1) (pySorted_sorted l2)

theorem pySorted_mem {l : List String} {x : String} : x ∈ pySorted l ↔ x ∈ l :=
  (pySorted_perm l).mem_iff

theorem pySorted_nodup {l : List String} (h : l.Nodup) : (pySorted l).Nodup :=
  (pySorted_perm l).nodup_iff.mpr h

theorem trailerList_nodup (xs : List String) : (trailerList xs).Nodup :=
  pySorted_nodup xs.nodup_dedup

theorem trailerList_mem (xs : List String) (x : String) : x ∈ trailerList xs ↔ x ∈ xs := by
  rw [trailerList, pySorted_mem, List.mem_dedup]

theorem trailerList_sorted (xs : List String) :
    List.Sorted (fun a b => strLe a b = true) (trailerList xs) :=
  pySorted_sorted _


/-! ## Characterization lemmas for the reporting loop -/

theorem matchFilter_of_unfiltered {c : Config} (hc : unfilteredMode c = true) (k : String) :
    matchFilter c k = false := by
  unfold unfilteredMode at hc
  unfold matchFilter
  cases hu : c.user with
  | none =>
    cases hs : c.shared_group with
    | none => rfl
    | some s =>
      rw [hu, hs] at hc
      simp [truthy] at hc
      simp [hc]
  | some u =>
    rw [hu] at hc
    simp [truthy] at hc
    obtain ⟨h1, h2⟩ := hc
    cases hs : c.shared_group with
    | none => simp [h1]
    | some s =>
      rw [hs] at h2
      simp [truthy] at h2
      simp [h1, h2]

theorem step_unfiltered_wf {c : Config} (hc : unfilteredMode c = true) (sc : Scope)
    {m : RawMember} (hm : wellFormed m = true) (st : St) :
    step c sc st m = .ok { st with
      full_name := some (fullNameOf m)
      access_level := some (accOf m)
      scopeMembers := dictInsert (keyOf m) (entryOf m) st.scopeMembers
      all_members := st.all_members ++ [keyOf m]
      print_msgs := st.print_msgs ++ [memberLine (fullNameOf m) (accOf m)] } := by
  cases m with
  | user un rn lvl =>
    rw [wellFormed] at hm
    obtain ⟨acc, hA⟩ := Option.isSome_iff_exists.mp hm
    rw [step, hA, matchFilter_of_unfiltered hc]
    simp only [Bool.false_eq_true, if_false, hc, if_true]
    simp [fullNameOf, accOf, entryOf, keyOf, hA]
  | share gn gp lvl =>
    rw [wellFormed] at hm
    obtain ⟨acc, hA⟩ := Option.isSome_iff_exists.mp hm
    rw [step, hA, matchFilter_of_unfiltered hc]
    simp only [Bool.false_eq_true, if_false, hc, if_true]
    simp [fullNameOf, accOf, entryOf, keyOf, hA]
  | other payload => simp [wellFormed] at hm

theorem stepList_unfiltered_wf {c : Config} (hc : unfilteredMode c = true) (sc : Scope) :
    ∀ (ms : List RawMember), ms.all wellFormed = true → ∀ st : St,
    ∃ st', stepList c sc st ms = .ok st' ∧
      st'.print_msgs = st.print_msgs ++ ms.map (fun m => memberLine (fullNameOf m) (accOf m)) ∧
      st'.all_members = st.all_members ++ ms.map keyOf ∧
      st'.member_dict = st.member_dict ∧
      st'.out1 = st.out1 ∧ st'.out2 = st.out2
  | [], _, st => ⟨st, rfl, by simp⟩
  | m :: ms, hwf, st => by
    rw [List.all_cons, Bool.and_eq_true] at hwf
    obtain ⟨st', hrun, h1, h2, h3, h4, h5⟩ := stepList_unfiltered_wf hc sc ms hwf.2 _
    refine ⟨st', ?_, ?_⟩
    · rw [stepList, step_unfiltered_wf hc sc hwf.1 st]
      exact hrun
    · simp [h1, h2, h3, h4, h5]

theorem narrStream_emit (c : Config) (st : St) (lines : List String) :
    narrStream c (emit c st lines) = narrStream c st ++ lines.map Out.text := by
  rw [narrStream, emit, narrStream]
  split <;> simp

theorem emit_member_dict (c : Config) (st : St) (lines : List String) :
    (emit c st lines).member_dict = st.member_dict := by
  rw [emit]; split <;> rfl

theorem emit_all_members (c : Config) (st : St) (lines : List String) :
    (emit c st lines).all_members = st.all_members := by
  rw [emit]; split <;> rfl

theorem emit_scopeMembers (c : Config) (st : St) (lines : List String) :
    (emit c st lines).scopeMembers = st.scopeMembers := by
  rw [emit]; split <;> rfl

theorem emit_print_msgs (c : Config) (st : St) (lines : List String) :
    (emit c st lines).print_msgs = st.print_msgs := by
  rw [emit]; split <;> rfl

theorem processScope_unfiltered_wf {c : Config} (hc : unfilteredMode c = true) (sc : Scope)
    {ms : List RawMember} (hwf : ms.all wellFormed = true) (st : St) :
    ∃ st', processScope c st sc ms = .ok st' ∧
      narrStream c st' = narrStream c st ++
        (if ms.isEmpty then
          (if c.verbose then [Out.text (noMembershipsLine c sc)] else [])
         else Out.text (scopeHeader sc) ::
           (pySorted (ms.map (fun m => memberLine (fullNameOf m) (accOf m)))).map Out.text) ∧
      st'.all_members = st.all_members ++ ms.map keyOf ∧
      ∃ mems, st'.member_dict = dictInsert sc.name ⟨scopeTypeName sc, sc.id, mems⟩ st.member_dict := by
  cases ms with
  | nil =>
    rw [processScope]
    by_cases hv : c.verbose
    · refine ⟨_, by rw [if_pos hv], ?_, ?_, ⟨[], ?_⟩⟩
      · rw [narrStream_emit]
        simp only [List.isEmpty_nil, if_true, if_pos hv]
        rw [narrStream, narrStream]
        split <;> simp
      · rw [emit_all_members]; simp
      · rw [emit_member_dict]
    · refine ⟨_, by rw [if_neg hv], ?_, by simp, ⟨[], rfl⟩⟩
      · simp only [List.isEmpty_nil, if_true, if_neg hv]
        rw [narrStream, narrStream]
        split <;> simp
  | cons m0 rest =>
    rw [processScope]
    rw [if_pos hc]
    obtain ⟨st2, hrun, h1, h2, h3, h4, h5⟩ :=
      stepList_unfiltered_wf hc sc (m0 :: rest) hwf
        (emit c { st with scopeMembers := [], print_msgs := [] } [scopeHeader sc])
    rw [hrun]
    refine ⟨_, rfl, ?_, ?_, ⟨st2.scopeMembers, ?_⟩⟩
    · rw [narrStream_emit]
      have hmsgs : st2.print_msgs =
          (m0 :: rest).map (fun m => memberLine (fullNameOf m) (accOf m)) := by
        simp [h1, emit_print_msgs]
      have hn : narrStream c { st2 with
          member_dict := dictInsert sc.name ⟨scopeTypeName sc, sc.id, st2.scopeMembers⟩
            st2.member_dict } = narrStream c st2 := by
        cases hj : c.json_output <;> simp [narrStream, hj]
      rw [hn, hmsgs]
      have hn2 : narrStream c st2 = narrStream c st ++ [Out.text (scopeHeader sc)] := by
        rw [narrStream, narrStream]
        by_cases hj : c.json_output
        · rw [if_pos hj, if_pos hj, h5, emit, if_pos hj]; simp [narrStream]
        · rw [if_neg hj, if_neg hj, h4, emit, if_neg hj]
          simp only [Bool.not_eq_true] at hj
          simp [hj]
      rw [hn2]
      simp
    · simp [h2, emit_all_members]
    · simp [h3, emit_member_dict]

theorem step_filtered_wf {c : Config} (hf : unfilteredMode c = false) (sc : Scope)
    {m : RawMember} (hm : wellFormed m = true) (st : St) :
    ∃ st', step c sc st m = .ok st' ∧
      narrStream c st' = narrStream c st ++
        (if matchFilter c (keyOf m) then
          [Out.text (matchHeader sc), Out.text (memberLine (fullNameOf m) (accOf m))] else []) ∧
      st'.print_msgs = st.print_msgs ∧
      st'.all_members = st.all_members ++ [keyOf m] ∧
      st'.member_dict = st.member_dict := by
  cases m with
  | user un rn lvl =>
    rw [wellFormed] at hm
    obtain ⟨acc, hA⟩ := Option.isSome_iff_exists.mp hm
    by_cases hmf : matchFilter c un
    · refine ⟨emit c { st with
          full_name := some (rn ++ " (" ++ un ++ ")"), access_level := some acc
          scopeMembers := dictInsert un ⟨"user", some (rn ++ " (" ++ un ++ ")"), some acc, none⟩
            st.scopeMembers
          all_members := st.all_members ++ [un] }
          [matchHeader sc, memberLine (rn ++ " (" ++ un ++ ")") acc], ?_, ?_, ?_, ?_, ?_⟩
      · simp [step, hA, hmf]
      · rw [narrStream_emit]
        have hn : narrStream c ({ st with
            full_name := some (rn ++ " (" ++ un ++ ")"), access_level := some acc
            scopeMembers := dictInsert un ⟨"user", some (rn ++ " (" ++ un ++ ")"), some acc, none⟩
              st.scopeMembers
            all_members := st.all_members ++ [un] } : St) = narrStream c st := by
          cases hj : c.json_output <;> simp [narrStream, hj]
        rw [hn]
        simp [keyOf, hmf, fullNameOf, accOf, hA, memberLine]
      · rw [emit_print_msgs]
      · rw [emit_all_members]; simp [keyOf]
      · rw [emit_member_dict]
    · refine ⟨{ st with
          full_name := some (rn ++ " (" ++ un ++ ")"), access_level := some acc
          scopeMembers := dictInsert un ⟨"user", some (rn ++ " (" ++ un ++ ")"), some acc, none⟩
            st.scopeMembers
          all_members := st.all_members ++ [un] },
        by simp [step, hA, hmf, hf], ?_, rfl, by simp [keyOf], rfl⟩
      have hn : narrStream c ({ st with
          full_name := some (rn ++ " (" ++ un ++ ")"), access_level := some acc
          scopeMembers := dictInsert un ⟨"user", some (rn ++ " (" ++ un ++ ")"), some acc, none⟩
            st.scopeMembers
          all_members := st.all_members ++ [un] } : St) = narrStream c st := by
        cases hj : c.json_output <;> simp [narrStream, hj]
      rw [hn]
      simp [keyOf, hmf]
  | share gn gp lvl =>
    rw [wellFormed] at hm
    obtain ⟨acc, hA⟩ := Option.isSome_iff_exists.mp hm
    by_cases hmf : matchFilter c gn
    · refine ⟨emit c { st with
          full_name := some (gn ++ " (" ++ gp ++ ")"), access_level := some acc
          scopeMembers := dictInsert gn ⟨"group", some (gn ++ " (" ++ gp ++ ")"), some acc, none⟩
            st.scopeMembers
          all_members := st.all_members ++ [gn] }
          [matchHeader sc, memberLine (gn ++ " (" ++ gp ++ ")") acc], ?_, ?_, ?_, ?_, ?_⟩
      · simp [step, hA, hmf]
      · rw [narrStream_emit]
        have hn : narrStream c ({ st with
            full_name := some (gn ++ " (" ++ gp ++ ")"), access_level := some acc
            scopeMembers := dictInsert gn ⟨"group", some (gn ++ " (" ++ gp ++ ")"), some acc, none⟩
              st.scopeMembers
            all_members := st.all_members ++ [gn] } : St) = narrStream c st := by
          cases hj : c.json_output <;> simp [narrStream, hj]
        rw [hn]
        simp [keyOf, hmf, fullNameOf, accOf, hA, memberLine]
      · rw [emit_print_msgs]
      · rw [emit_all_members]; simp [keyOf]
      · rw [emit_member_dict]
    · refine ⟨{ st with
          full_name := some (gn ++ " (" ++ gp ++ ")"), access_level := some acc
          scopeMembers := dictInsert gn ⟨"group", some (gn ++ " (" ++ gp ++ ")"), some acc, none⟩
            st.scopeMembers
          all_members := st.all_members ++ [gn] },
        by simp [step, hA, hmf, hf], ?_, rfl, by simp [keyOf], rfl⟩
      have hn : narrStream c ({ st with
          full_name := some (gn ++ " (" ++ gp ++ ")"), access_level := some acc
          scopeMembers := dictInsert gn ⟨"group", some (gn ++ " (" ++ gp ++ ")"), some acc, none⟩
            st.scopeMembers
          all_members := st.all_members ++ [gn] } : St) = narrStream c st := by
        cases hj : c.json_output <;> simp [narrStream, hj]
      rw [hn]
      simp [keyOf, hmf]
  | other payload => simp [wellFormed] at hm

theorem stepList_filtered_wf {c : Config} (hf : unfilteredMode c = false) (sc : Scope) :
    ∀ (ms : List RawMember), ms.all wellFormed = true → ∀ st : St,
    ∃ st', stepList c sc st ms = .ok st' ∧
      narrStream c st' = narrStream c st ++
        (((ms.filter (fun m => matchFilter c (keyOf m))).map
          (fun m => [Out.text (matchHeader sc),
                     Out.text (memberLine (fullNameOf m) (accOf m))])).flatten) ∧
      st'.print_msgs = st.print_msgs ∧
      st'.all_members = st.all_members ++ ms.map keyOf ∧
      st'.member_dict = st.member_dict
  | [], _, st => ⟨st, rfl, by simp⟩
  | m :: ms, hwf, st => by
    rw [List.all_cons, Bool.and_eq_true] at hwf
    obtain ⟨st1, hstep, hn1, hp1, ha1, hd1⟩ := step_filtered_wf hf sc hwf.1 st
    obtain ⟨st', hrun, hn2, hp2, ha2, hd2⟩ := stepList_filtered_wf hf sc ms hwf.2 st1
    refine ⟨st', ?_, ?_, ?_, ?_, ?_⟩
    · rw [stepList, hstep]; exact hrun
    · rw [hn2, hn1]
      by_cases hmf : matchFilter c (keyOf m) <;>
        simp [List.filter_cons, hmf, List.append_assoc]
    · rw [hp2, hp1]
    · rw [ha2, ha1]; simp
    · rw [hd2, hd1]

theorem processScope_filtered_wf {c : Config} (hf : unfilteredMode c = false)
    (hv : c.verbose = false) (sc : Scope)
    {ms : List RawMember} (hwf : ms.all wellFormed = true) (st : St) :
    ∃ st', processScope c st sc ms = .ok st' ∧
      narrStream c st' = narrStream c st ++
        (((ms.filter (fun m => matchFilter c (keyOf m))).map
          (fun m => [Out.text (matchHeader sc),
                     Out.text (memberLine (fullNameOf m) (accOf m))])).flatten) ∧
      st'.all_members = st.all_members ++ ms.map keyOf ∧
      ∃ mems, st'.member_dict = dictInsert sc.name ⟨scopeTypeName sc, sc.id, mems⟩ st.member_dict := by
  cases ms with
  | nil =>
    rw [processScope, if_neg (by rw [hv]; intro hx; cases hx)]
    refine ⟨_, rfl, ?_, by simp, ⟨[], rfl⟩⟩
    simp only [List.filter_nil, List.map_nil, List.flatten_nil, List.append_nil]
    cases hj : c.json_output <;> simp [narrStream, hj]
  | cons m0 rest =>
    rw [processScope, if_neg (by rw [hf]; intro hx; cases hx)]
    obtain ⟨st2, hrun, hn, hp, ha, hd⟩ :=
      stepList_filtered_wf hf sc (m0 :: rest) hwf { st with scopeMembers := [], print_msgs := [] }
    rw [hrun]
    refine ⟨_, rfl, ?_, ?_, ⟨st2.scopeMembers, ?_⟩⟩
    · rw [narrStream_emit]
      have hmsgs : st2.print_msgs = [] := by rw [hp]
      have hn0 : narrStream c ({ st with scopeMembers := [], print_msgs := [] } : St) =
          narrStream c st := by
        cases hj : c.json_output <;> simp [narrStream, hj]
      have hn1 : narrStream c { st2 with
          member_dict := dictInsert sc.name ⟨scopeTypeName sc, sc.id, st2.scopeMembers⟩
            st2.member_dict } = narrStream c st2 := by
        cases hj : c.json_output <;> simp [narrStream, hj]
      rw [hn1, hmsgs, hn, hn0]
      simp [pySorted, List.insertionSort]
    · rw [emit_all_members]; simp [ha]
    · rw [emit_member_dict]; simp [hd]

theorem step_user_eq {c : Config} {sc : Scope} {st : St} {un rn : String} {lvl : Nat}
    {acc : String} (hA : ACCESS_LEVELS lvl = some acc) :
    step c sc st (RawMember.user un rn lvl) =
      (if matchFilter c un then
        .ok (emit c { st with
          full_name := some (rn ++ " (" ++ un ++ ")"), access_level := some acc
          scopeMembers := dictInsert un
            ⟨"user", some (rn ++ " (" ++ un ++ ")"), some acc, none⟩ st.scopeMembers
          all_members := st.all_members ++ [un] }
          [matchHeader sc, memberLine (rn ++ " (" ++ un ++ ")") acc])
      else if unfilteredMode c then
        .ok { st with
          full_name := some (rn ++ " (" ++ un ++ ")"), access_level := some acc
          scopeMembers := dictInsert un
            ⟨"user", some (rn ++ " (" ++ un ++ ")"), some acc, none⟩ st.scopeMembers
          all_members := st.all_members ++ [un]
          print_msgs := st.print_msgs ++ [memberLine (rn ++ " (" ++ un ++ ")") acc] }
      else
        .ok { st with
          full_name := some (rn ++ " (" ++ un ++ ")"), access_level := some acc
          scopeMembers := dictInsert un
            ⟨"user", some (rn ++ " (" ++ un ++ ")"), some acc, none⟩ st.scopeMembers
          all_members := st.all_members ++ [un] }) := by
  rw [step, hA]

theorem step_share_eq {c : Config} {sc : Scope} {st : St} {gn gp : String} {lvl : Nat}
    {acc : String} (hA : ACCESS_LEVELS lvl = some acc) :
    step c sc st (RawMember.share gn gp lvl) =
      (if matchFilter c gn then
        .ok (emit c { st with
          full_name := some (gn ++ " (" ++ gp ++ ")"), access_level := some acc
          scopeMembers := dictInsert gn
            ⟨"group", some (gn ++ " (" ++ gp ++ ")"), some acc, none⟩ st.scopeMembers
          all_members := st.all_members ++ [gn] }
          [matchHeader sc, memberLine (gn ++ " (" ++ gp ++ ")") acc])
      else if unfilteredMode c then
        .ok { st with
          full_name := some (gn ++ " (" ++ gp ++ ")"), access_level := some acc
          scopeMembers := dictInsert gn
            ⟨"group", some (gn ++ " (" ++ gp ++ ")"), some acc, none⟩ st.scopeMembers
          all_members := st.all_members ++ [gn]
          print_msgs := st.print_msgs ++ [memberLine (gn ++ " (" ++ gp ++ ")") acc] }
      else
        .ok { st with
          full_name := some (gn ++ " (" ++ gp ++ ")"), access_level := some acc
          scopeMembers := dictInsert gn
            ⟨"group", some (gn ++ " (" ++ gp ++ ")"), some acc, none⟩ st.scopeMembers
          all_members := st.all_members ++ [gn] }) := by
  rw [step, hA]

theorem emit_full_name (c : Config) (st : St) (lines : List String) :
    (emit c st lines).full_name = st.full_name := by
  rw [emit]; split <;> rfl

theorem emit_access_level (c : Config) (st : St) (lines : List String) :
    (emit c st lines).access_level = st.access_level := by
  rw [emit]; split <;> rfl

theorem step_other_eq {c : Config} {sc : Scope} {st : St} {payload : String} :
    step c sc st (RawMember.other payload) =
      (if matchFilter c "unknown" then
        match (emit c { st with
            out1 := st.out1 ++ [Out.text (unknownTypeLine payload)]
            scopeMembers := dictInsert "unknown" ⟨"unknown", none, none, some payload⟩
              st.scopeMembers
            all_members := st.all_members ++ ["unknown"] } [matchHeader sc]).full_name,
          (emit c { st with
            out1 := st.out1 ++ [Out.text (unknownTypeLine payload)]
            scopeMembers := dictInsert "unknown" ⟨"unknown", none, none, some payload⟩
              st.scopeMembers
            all_members := st.all_members ++ ["unknown"] } [matchHeader sc]).access_level with
        | some f, some acc =>
            .ok (emit c (emit c { st with
              out1 := st.out1 ++ [Out.text (unknownTypeLine payload)]
              scopeMembers := dictInsert "unknown" ⟨"unknown", none, none, some payload⟩
                st.scopeMembers
              all_members := st.all_members ++ ["unknown"] } [matchHeader sc])
              [memberLine f acc])
        | _, _ => .error .nameError
      else if unfilteredMode c then
        match st.full_name, st.access_level with
        | some f, some acc =>
            .ok { st with
              out1 := st.out1 ++ [Out.text (unknownTypeLine payload)]
              scopeMembers := dictInsert "unknown" ⟨"unknown", none, none, some payload⟩
                st.scopeMembers
              all_members := st.all_members ++ ["unknown"]
              print_msgs := st.print_msgs ++ [memberLine f acc] }
        | _, _ => .error .nameError
      else
        .ok { st with
          out1 := st.out1 ++ [Out.text (unknownTypeLine payload)]
          scopeMembers := dictInsert "unknown" ⟨"unknown", none, none, some payload⟩
            st.scopeMembers
          all_members := st.all_members ++ ["unknown"] }) := by
  rw [step]

theorem step_member_dict {c : Config} {sc : Scope} {st : St} {m : RawMember} {st' : St}
    (h : step c sc st m = .ok st') : st'.member_dict = st.member_dict := by
  cases m with
  | user un rn lvl =>
    rcases hA : ACCESS_LEVELS lvl with _ | acc
    · rw [step, hA] at h; cases h
    · rw [step_user_eq hA] at h
      by_cases hmf : matchFilter c un
      · rw [if_pos hmf] at h; cases h; rw [emit_member_dict]
      · rw [if_neg hmf] at h
        by_cases hu : unfilteredMode c
        · rw [if_pos hu] at h; cases h; rfl
        · rw [if_neg hu] at h; cases h; rfl
  | share gn gp lvl =>
    rcases hA : ACCESS_LEVELS lvl with _ | acc
    · rw [step, hA] at h; cases h
    · rw [step_share_eq hA] at h
      by_cases hmf : matchFilter c gn
      · rw [if_pos hmf] at h; cases h; rw [emit_member_dict]
      · rw [if_neg hmf] at h
        by_cases hu : unfilteredMode c
        · rw [if_pos hu] at h; cases h; rfl
        · rw [if_neg hu] at h; cases h; rfl
  | other payload =>
    rw [step_other_eq] at h
    by_cases hmf : matchFilter c "unknown"
    · rw [if_pos hmf] at h
      split at h
      · cases h; rw [emit_member_dict, emit_member_dict]
      · cases h
    · rw [if_neg hmf] at h
      by_cases hu : unfilteredMode c
      · rw [if_pos hu] at h
        split at h
        · cases h; rfl
        · cases h
      · rw [if_neg hu] at h; cases h; rfl

theorem stepList_member_dict {c : Config} {sc : Scope} :
    ∀ {ms : List RawMember} {st st' : St},
      stepList c sc st ms = .ok st' → st'.member_dict = st.member_dict
  | [], st, st', h => by cases h; rfl
  | m :: ms, st, st', h => by
    rw [stepList] at h
    cases hs : step c sc st m with
    | error e => rw [hs] at h; cases h
    | ok st1 =>
      rw [hs] at h
      rw [stepList_member_dict h, step_member_dict hs]

theorem processScope_member_dict {c : Config} {st : St} {sc : Scope} {ms : List RawMember}
    {st' : St} (h : processScope c st sc ms = .ok st') :
    ∃ mems, st'.member_dict = dictInsert sc.name ⟨scopeTypeName sc, sc.id, mems⟩ st.member_dict := by
  cases ms with
  | nil =>
    rw [processScope] at h
    by_cases hv : c.verbose
    · rw [if_pos hv] at h
      cases h
      exact ⟨[], by rw [emit_member_dict]⟩
    · rw [if_neg hv] at h
      cases h
      exact ⟨[], rfl⟩
  | cons m0 rest =>
    rw [processScope] at h
    cases hs : stepList c sc
        (if unfilteredMode c = true then
          emit c { st with scopeMembers := [], print_msgs := [] } [scopeHeader sc]
        else { st with scopeMembers := [], print_msgs := [] }) (m0 :: rest) with
    | error e => rw [hs] at h; cases h
    | ok st2 =>
      rw [hs] at h
      cases h
      refine ⟨st2.scopeMembers, ?_⟩
      rw [emit_member_dict]
      have hd := stepList_member_dict hs
      by_cases hu : unfilteredMode c
      · rw [if_pos hu] at hd
        rw [hd, emit_member_dict]
      · rw [if_neg hu] at hd
        rw [hd]

theorem scopesLoop_nil {c : Config} {st : St} : scopesLoop c st [] = .ok st := rfl

theorem scopesLoop_cons {c : Config} {st : St} {sc : Scope} {ms : List RawMember}
    {rest : List (Scope × List RawMember)} :
    scopesLoop c st ((sc, ms) :: rest) =
      (match processScope c st sc ms with
       | .error e => .error e
       | .ok st2 => scopesLoop c st2 rest) := rfl

theorem get_memberships_report_err {c : Config} {snapshot : List (Scope × List RawMember)}
    {e : RunError} (hl : scopesLoop c initSt snapshot = .error e) :
    get_memberships_report c snapshot = .error e := by
  rw [get_memberships_report, hl]

theorem get_memberships_report_eq {c : Config} {snapshot : List (Scope × List RawMember)}
    {st0 : St} (hl : scopesLoop c initSt snapshot = .ok st0) :
    get_memberships_report c snapshot =
      (if c.json_output then
        .ok { emit c st0
            ("\nTotal list of users / shared groups in this scope:" ::
              (trailerList st0.all_members).map (fun m => "\t" ++ m)) with
          out1 := (emit c st0
            ("\nTotal list of users / shared groups in this scope:" ::
              (trailerList st0.all_members).map (fun m => "\t" ++ m))).out1 ++
            [Out.json (emit c st0
              ("\nTotal list of users / shared groups in this scope:" ::
                (trailerList st0.all_members).map (fun m => "\t" ++ m))).member_dict] }
      else
        .ok (emit c st0
          ("\nTotal list of users / shared groups in this scope:" ::
            (trailerList st0.all_members).map (fun m => "\t" ++ m)))) := by
  rw [get_memberships_report, hl]

theorem processScope_perm_wf {c : Config} (hc : unfilteredMode c = true) (sc : Scope)
    {ms1 ms2 : List RawMember} (hp : ms1.Perm ms2) (hwf : ms1.all wellFormed = true)
    (st1 st2 : St) (hn : narrStream c st1 = narrStream c st2)
    (ha : st1.all_members.Perm st2.all_members) :
    ∃ r1 r2, processScope c st1 sc ms1 = .ok r1 ∧ processScope c st2 sc ms2 = .ok r2 ∧
      narrStream c r1 = narrStream c r2 ∧ r1.all_members.Perm r2.all_members := by
  have hwf2 : ms2.all wellFormed = true := by
    rw [List.all_eq_true] at hwf ⊢
    intro m hm
    exact hwf m (hp.mem_iff.mpr hm)
  obtain ⟨r1, h1run, h1n, h1a, _⟩ := processScope_unfiltered_wf hc sc hwf st1
  obtain ⟨r2, h2run, h2n, h2a, _⟩ := processScope_unfiltered_wf hc sc hwf2 st2
  refine ⟨r1, r2, h1run, h2run, ?_, ?_⟩
  · rw [h1n, h2n, hn]
    congr 1
    have hemp : ms1.isEmpty = ms2.isEmpty := by
      cases ms1 with
      | nil => rw [hp.symm.eq_nil]
      | cons m0 rest =>
        cases ms2 with
        | nil => exact absurd hp.eq_nil (by intro hx; cases hx)
        | cons n0 nrest => rfl
    have hsort : pySorted (ms1.map (fun m => memberLine (fullNameOf m) (accOf m))) =
        pySorted (ms2.map (fun m => memberLine (fullNameOf m) (accOf m))) :=
      pySorted_eq_of_perm (hp.map _)
    rw [hemp, hsort]
  · rw [h1a, h2a]
    exact ha.append (hp.map keyOf)

theorem scopesLoop_perm_wf {c : Config} (hc : unfilteredMode c = true)
    {s1 s2 : List (Scope × List RawMember)} (hperm : SnapPerm s1 s2) :
    snapWF s1 = true →
    ∀ st1 st2 : St, narrStream c st1 = narrStream c st2 →
      st1.all_members.Perm st2.all_members →
      ∃ r1 r2, scopesLoop c st1 s1 = .ok r1 ∧ scopesLoop c st2 s2 = .ok r2 ∧
        narrStream c r1 = narrStream c r2 ∧ r1.all_members.Perm r2.all_members := by
  induction hperm with
  | nil =>
    intro _ st1 st2 hn ha
    exact ⟨st1, st2, rfl, rfl, hn, ha⟩
  | @cons a b l1 l2 hab htail IH =>
    intro hwf st1 st2 hn ha
    obtain ⟨sc1, ms1⟩ := a
    obtain ⟨sc2, ms2⟩ := b
    rw [snapWF, List.all_cons, Bool.and_eq_true] at hwf
    obtain ⟨hsc, hmsp⟩ := hab
    have hsc' : sc1 = sc2 := hsc
    subst hsc'
    obtain ⟨r1, r2, e1, e2, hn', ha'⟩ :=
      processScope_perm_wf hc sc1 hmsp hwf.1 st1 st2 hn ha
    obtain ⟨f1, f2, g1, g2, hfn, hfa⟩ := IH hwf.2 r1 r2 hn' ha'
    refine ⟨f1, f2, ?_, ?_, hfn, hfa⟩
    · rw [scopesLoop_cons]
      simp only [e1]
      exact g1
    · rw [scopesLoop_cons]
      simp only [e2]
      exact g2

/-! ## Claims -/

/-- Claim C1: the access-level table maps 10, 20, 30, 40, 50 exactly to
the labels Guest/Reporter/Developer/Maintainer/Owner access, every other
integer is absent from the table, and a membership record (user or
group-share) carrying an out-of-table level makes the whole run fail
with an uncaught `KeyError` — never silently coerced or dropped. -/
theorem C1_access_level_mapping :
    (ACCESS_LEVELS 10 = some "Guest access" ∧
     ACCESS_LEVELS 20 = some "Reporter access" ∧
     ACCESS_LEVELS 30 = some "Developer access" ∧
     ACCESS_LEVELS 40 = some "Maintainer access" ∧
     ACCESS_LEVELS 50 = some "Owner access") ∧
    (∀ n : Nat, n ≠ 10 → n ≠ 20 → n ≠ 30 → n ≠ 40 → n ≠ 50 → ACCESS_LEVELS n = none) ∧
    (∀ (c : Config) (sc : Scope) (username realname : String) (n : Nat),
      ACCESS_LEVELS n = none →
      get_memberships_report c [(sc, [RawMember.user username realname n])] =
        .error .keyError) ∧
    (∀ (c : Config) (sc : Scope) (group_name group_full_path : String) (n : Nat),
      ACCESS_LEVELS n = none →
      get_memberships_report c [(sc, [RawMember.share group_name group_full_path n])] =
        .error .keyError) := by
  refine ⟨⟨rfl, rfl, rfl, rfl, rfl⟩, ?_, ?_, ?_⟩
  · intro n h10 h20 h30 h40 h50
    simp [ACCESS_LEVELS, h10, h20, h30, h40, h50]
  · intro c sc username realname n h
    simp [get_memberships_report, scopesLoop, processScope, stepList, step, h]
  · intro c sc gn gp n h
    simp [get_memberships_report, scopesLoop, processScope, stepList, step, h]

/-- Witness for C1 at the concrete out-of-range level 25. -/
theorem C1_access_level_mapping_witness :
    ACCESS_LEVELS 25 = none ∧
    get_memberships_report unfCfg [(demoGroup, [RawMember.user "alice" "Alice" 25])] =
      .error .keyError :=
  ⟨by decide, C1_access_level_mapping.2.2.1 unfCfg demoGroup "alice" "Alice" 25 (by decide)⟩

/-- Counterexample to claim C2 as stated: with an overlapping subgroup
listing — group 2 listed twice under group 1, an acyclic hierarchy —
the walker returns group 2 twice, so the output is not duplicate-free
"even if the API returns overlapping subgroup lists": the walker has no
visited-set. -/
theorem C2_counterexample :
    get_all_groups (GTree.node 1 [GTree.node 2 [], GTree.node 2 []]) = [2, 2] ∧
    ¬ (get_all_groups (GTree.node 1 [GTree.node 2 [], GTree.node 2 []])).Nodup := by
  have h : get_all_groups (GTree.node 1 [GTree.node 2 [], GTree.node 2 []]) = [2, 2] := by
    simp [get_all_groups, GTree.children, walkForest]
  exact ⟨h, by rw [h]; decide⟩

/-- Claim C2 (amended): the walker returns exactly the preorder listing
of the descendant forest — each subgroup before its own descendants,
each subtree completed before the next sibling, the root itself
excluded — and, provided the subgroup listings served by the API
contain no duplicate id (no overlap), every descendant appears exactly
once. -/
theorem C2_walker_preorder (t : GTree) :
    get_all_groups t = forestIds t.children ∧
    (∀ x, x ∈ get_all_groups t ↔ x ∈ forestIds t.children) ∧
    (t.allIds.Nodup → (get_all_groups t).Nodup) := by
  refine ⟨walkForest_eq_forestIds t.children, ?_, ?_⟩
  · intro x
    rw [get_all_groups, walkForest_eq_forestIds t.children]
  · intro h
    rw [get_all_groups, walkForest_eq_forestIds t.children]
    rw [GTree.allIds] at h
    exact (List.nodup_cons.mp h).2

/-- Witness for C2 (amended) on a concrete duplicate-free tree. -/
theorem C2_walker_preorder_witness :
    get_all_groups (GTree.node 1 [GTree.node 2 [GTree.node 3 []], GTree.node 4 []]) =
      forestIds [GTree.node 2 [GTree.node 3 []], GTree.node 4 []] ∧
    (GTree.node 1 [GTree.node 2 [GTree.node 3 []], GTree.node 4 []]).allIds.Nodup ∧
    (get_all_groups (GTree.node 1 [GTree.node 2 [GTree.node 3 []], GTree.node 4 []])).Nodup := by
  have hids : (GTree.node 1 [GTree.node 2 [GTree.node 3 []], GTree.node 4 []]).allIds =
      [1, 2, 3, 4] := by
    simp [GTree.allIds, GTree.rootId, GTree.children, forestIds]
  exact ⟨(C2_walker_preorder _).1, by rw [hids]; decide,
    (C2_walker_preorder _).2.2 (by rw [hids]; decide)⟩

/-- Claim C8: resolving by `--group` name with zero exact-name matches
produces the not-found message and exit code 1; more than one match
produces the ambiguity message, the candidate id lines exactly in
verbose mode, and exit code 1; every resolution error carries exit
code 1; and the traversal only proceeds (`.ok`) when the match is
unique. -/
theorem C8_resolution_failures (all_groups : List GroupRec) (group : String) (verbose : Bool) :
    (findBaseGroups all_groups group = [] →
      resolvePhase all_groups group verbose = .error ([notFoundMsg group], [], 1)) ∧
    ((findBaseGroups all_groups group).length > 1 →
      resolvePhase all_groups group verbose =
        .error ([multipleMsg group],
          if verbose then (findBaseGroups all_groups group).map candidateLine else [], 1)) ∧
    (∀ msgs errLines code,
      resolvePhase all_groups group verbose = .error (msgs, errLines, code) → code = 1) ∧
    (∀ g, resolvePhase all_groups group verbose = .ok g →
      findBaseGroups all_groups group ≠ [] ∧ (findBaseGroups all_groups group).length ≤ 1) := by
  refine ⟨?_, ?_, ?_, ?_⟩
  · intro h
    simp [resolvePhase, h]
  · intro h
    rw [resolvePhase]
    simp only [if_pos h]
  · intro msgs errLines code h
    by_cases hl : (findBaseGroups all_groups group).length > 1
    · rw [resolvePhase] at h
      simp only [if_pos hl] at h
      cases h
      rfl
    · rw [resolvePhase] at h
      simp only [if_neg hl] at h
      cases hbg : findBaseGroups all_groups group with
      | nil => rw [hbg] at h; cases h; rfl
      | cons g gs => rw [hbg] at h; cases h
  · intro g h
    by_cases hl : (findBaseGroups all_groups group).length > 1
    · rw [resolvePhase] at h
      simp only [if_pos hl] at h
      cases h
    · rw [resolvePhase] at h
      simp only [if_neg hl] at h
      cases hbg : findBaseGroups all_groups group with
      | nil => rw [hbg] at h; cases h
      | cons g0 gs =>
        rw [hbg] at hl
        simp only [List.length_cons] at hl
        refine ⟨(by intro hx; cases hx), ?_⟩
        simp only [List.length_cons]
        omega

/-- Witness for C8: a concrete ambiguous name and a concrete missing
name. -/
theorem C8_resolution_failures_witness :
    resolvePhase [⟨"eng", 1⟩, ⟨"eng", 2⟩] "eng" true =
      .error ([multipleMsg "eng"], [candidateLine ⟨"eng", 1⟩, candidateLine ⟨"eng", 2⟩], 1) ∧
    resolvePhase [⟨"eng", 1⟩] "ops" false = .error ([notFoundMsg "ops"], [], 1) := by
  constructor
  · have h := (C8_resolution_failures [⟨"eng", 1⟩, ⟨"eng", 2⟩] "eng" true).2.1 (by decide)
    rw [h]
    rfl
  · exact (C8_resolution_failures [⟨"eng", 1⟩] "ops" false).1 (by decide)

/-- Claim C3 (code-bug evaluation): in `--json-output` mode, a run over
a scope holding a malformed record succeeds, yet the primary stdout
stream holds the `Unknown type:` diagnostic line (first) in addition to
the JSON dump (two items in total): the `print` at line 152 has no
`file=` argument, so this diagnostic is interleaved into the structured
stream, contradicting the stream discipline the comment at lines 41-43
itself states. -/
theorem C3_unknown_diagnostic_on_stdout :
    runOk (get_memberships_report jsonCfg mixedSnap) = true ∧
    (stdoutOf (get_memberships_report jsonCfg mixedSnap)).head? =
      some (Out.text (unknownTypeLine "weird")) ∧
    (stdoutOf (get_memberships_report jsonCfg mixedSnap)).length = 2 := by
  refine ⟨rfl, rfl, rfl⟩

/-- Claim C7 (code-bug evaluation): an unfiltered run whose first
membership record is malformed dies with an uncaught `NameError` — the
rendered narrative line at line 166 reads `full_name`, which no
iteration has assigned yet — so the run does not exit 0.  When an
earlier user/share record has bound the locals (here: json mode over
`mixedSnap`), the malformed record is classified `unknown` and does
appear in the structured output with its raw payload preserved in
`details` and a null `access_level`, as the claim describes. -/
theorem C7_unknown_record_crash :
    get_memberships_report unfCfg crashSnap = .error .nameError ∧
    runOk (get_memberships_report unfCfg crashSnap) = false ∧
    (∃ st, get_memberships_report jsonCfg mixedSnap = .ok st ∧
      ∃ e, dictFind "Eng" st.member_dict = some e ∧
        dictFind "unknown" e.members = some ⟨"unknown", none, none, some "weird"⟩) := by
  refine ⟨rfl, rfl, ?_⟩
  refine ⟨_, rfl, ?_⟩
  refine ⟨_, rfl, ?_⟩
  decide

/-- Claim C9: the structured snapshot `member_dict` is keyed by bare
scope name only: for any run over two scopes sharing a name, the final
dict has a single entry under that name carrying the later scope's type
and id (the earlier entry is silently replaced), so the structured
output has fewer entries than visited scopes. -/
theorem C9_snapshot_keyed_by_name (c : Config) (sc1 sc2 : Scope) (ms1 ms2 : List RawMember)
    (hname : sc1.name = sc2.name) (st : St)
    (h : get_memberships_report c [(sc1, ms1), (sc2, ms2)] = .ok st) :
    ∃ mems, st.member_dict = [(sc2.name, ⟨scopeTypeName sc2, sc2.id, mems⟩)] ∧
      st.member_dict.length = 1 ∧
      dictFind sc1.name st.member_dict = some ⟨scopeTypeName sc2, sc2.id, mems⟩ := by
  cases hl : scopesLoop c initSt [(sc1, ms1), (sc2, ms2)] with
  | error e => rw [get_memberships_report_err hl] at h; cases h
  | ok st0 =>
    rw [get_memberships_report_eq hl] at h
    have hmd : st.member_dict = st0.member_dict := by
      by_cases hj : c.json_output
      · rw [if_pos hj] at h
        cases h
        rw [emit_member_dict]
      · rw [if_neg hj] at h
        cases h
        rw [emit_member_dict]
    rw [scopesLoop_cons] at hl
    cases hp1 : processScope c initSt sc1 ms1 with
    | error e => rw [hp1] at hl; cases hl
    | ok s1 =>
      simp only [hp1] at hl
      rw [scopesLoop_cons] at hl
      cases hp2 : processScope c s1 sc2 ms2 with
      | error e => rw [hp2] at hl; cases hl
      | ok s2 =>
        simp only [hp2, scopesLoop_nil] at hl
        cases hl
        obtain ⟨m1, h1⟩ := processScope_member_dict hp1
        obtain ⟨m2, h2⟩ := processScope_member_dict hp2
        rw [h1] at h2
        have hinit : (initSt.member_dict : List (String × ScopeEntry)) = [] := rfl
        rw [hinit] at h2
        have hins : dictInsert sc2.name (⟨scopeTypeName sc2, sc2.id, m2⟩ : ScopeEntry)
            (dictInsert sc1.name ⟨scopeTypeName sc1, sc1.id, m1⟩ []) =
            [(sc2.name, ⟨scopeTypeName sc2, sc2.id, m2⟩)] := by
          rw [dictInsert, dictInsert]
          rw [if_pos (by rw [hname]; exact beq_self_eq_true sc2.name)]
        rw [hins] at h2
        refine ⟨m2, by rw [hmd, h2], by rw [hmd, h2]; rfl, ?_⟩
        rw [hmd, h2, hname, dictFind, if_pos (beq_self_eq_true sc2.name)]

/-- Witness for C9: a group and a project both named `X`. -/
theorem C9_snapshot_keyed_by_name_witness :
    ∃ st, get_memberships_report jsonCfg
        [(dupFst, [RawMember.user "alice" "Alice" 40]),
         (dupSnd, [RawMember.user "bob" "Bob" 30])] = .ok st ∧
      ∃ mems, st.member_dict = [(dupSnd.name, ⟨scopeTypeName dupSnd, dupSnd.id, mems⟩)] ∧
        st.member_dict.length = 1 ∧
        dictFind dupFst.name st.member_dict =
          some ⟨scopeTypeName dupSnd, dupSnd.id, mems⟩ := by
  refine ⟨_, rfl, ?_⟩
  exact C9_snapshot_keyed_by_name jsonCfg dupFst dupSnd
    [RawMember.user "alice" "Alice" 40] [RawMember.user "bob" "Bob" 30] rfl _ rfl

/-- Claim C10: both filters compare against the same computed `name`
key irrespective of the record's variant: a `--user` value equal to a
group-share's group name triggers the matching-membership header and
line for that share, and a `--shared-group` value equal to a username
triggers them for that user. -/
theorem C10_filters_share_one_key (u s group_full_path realname : String) (lvl1 lvl2 : Nat)
    (acc1 acc2 : String) (hu : u ≠ "") (hs : s ≠ "")
    (hA1 : ACCESS_LEVELS lvl1 = some acc1) (hA2 : ACCESS_LEVELS lvl2 = some acc2)
    (jo vb : Bool) (sc : Scope) (st : St) :
    (∃ st', step ⟨some u, none, jo, vb⟩ sc st (RawMember.share u group_full_path lvl1) =
        .ok st' ∧
      narrStream ⟨some u, none, jo, vb⟩ st' = narrStream ⟨some u, none, jo, vb⟩ st ++
        [Out.text (matchHeader sc),
         Out.text (memberLine (u ++ " (" ++ group_full_path ++ ")") acc1)]) ∧
    (∃ st', step ⟨none, some s, jo, vb⟩ sc st (RawMember.user s realname lvl2) = .ok st' ∧
      narrStream ⟨none, some s, jo, vb⟩ st' = narrStream ⟨none, some s, jo, vb⟩ st ++
        [Out.text (matchHeader sc),
         Out.text (memberLine (realname ++ " (" ++ s ++ ")") acc2)]) := by
  constructor
  · have hf : unfilteredMode ⟨some u, none, jo, vb⟩ = false := by
      simp [unfilteredMode, truthy, hu]
    have hwf : wellFormed (RawMember.share u group_full_path lvl1) = true := by
      simp [wellFormed, hA1]
    obtain ⟨st', hstep, hn, _, _, _⟩ := step_filtered_wf hf sc hwf st
    refine ⟨st', hstep, ?_⟩
    rw [hn]
    have hmf : matchFilter ⟨some u, none, jo, vb⟩
        (keyOf (RawMember.share u group_full_path lvl1)) = true := by
      simp [matchFilter, keyOf, hu]
    rw [if_pos hmf]
    simp [fullNameOf, accOf, hA1]
  · have hf : unfilteredMode ⟨none, some s, jo, vb⟩ = false := by
      simp [unfilteredMode, truthy, hs]
    have hwf : wellFormed (RawMember.user s realname lvl2) = true := by
      simp [wellFormed, hA2]
    obtain ⟨st', hstep, hn, _, _, _⟩ := step_filtered_wf hf sc hwf st
    refine ⟨st', hstep, ?_⟩
    rw [hn]
    have hmf : matchFilter ⟨none, some s, jo, vb⟩ (keyOf (RawMember.user s realname lvl2)) =
        true := by
      simp [matchFilter, keyOf, hs]
    rw [if_pos hmf]
    simp [fullNameOf, accOf, hA2]

/-- Witness for C10 at concrete filter values. -/
theorem C10_filters_share_one_key_witness :
    (∃ st', step ⟨some "partners", none, false, false⟩ demoGroup initSt
        (RawMember.share "partners" "org/partners" 20) = .ok st' ∧
      narrStream ⟨some "partners", none, false, false⟩ st' =
        narrStream ⟨some "partners", none, false, false⟩ initSt ++
        [Out.text (matchHeader demoGroup),
         Out.text (memberLine ("partners" ++ " (" ++ "org/partners" ++ ")") "Reporter access")]) ∧
    (∃ st', step ⟨none, some "alice", false, false⟩ demoGroup initSt
        (RawMember.user "alice" "Alice A" 40) = .ok st' ∧
      narrStream ⟨none, some "alice", false, false⟩ st' =
        narrStream ⟨none, some "alice", false, false⟩ initSt ++
        [Out.text (matchHeader demoGroup),
         Out.text (memberLine ("Alice A" ++ " (" ++ "alice" ++ ")") "Maintainer access")]) :=
  C10_filters_share_one_key "partners" "alice" "org/partners" "Alice A" 20 40
    "Reporter access" "Maintainer access" (by decide) (by decide) rfl rfl false false
    demoGroup initSt

/-- Claim C5: for every run that completes, regardless of mode and
filters, the trailer printed after the scope loop is the header line
followed by the deduplicated identity keys seen across all scopes —
each exactly once, sorted lexicographically by code point. -/
theorem C5_trailer_dedup_sorted (c : Config) (snapshot : List (Scope × List RawMember))
    (st0 : St) (h : scopesLoop c initSt snapshot = .ok st0) :
    ∃ stF, get_memberships_report c snapshot = .ok stF ∧
      narrStream c stF = narrStream c st0 ++
        (Out.text "\nTotal list of users / shared groups in this scope:" ::
          (trailerList st0.all_members).map (fun m => Out.text ("\t" ++ m))) ∧
      (trailerList st0.all_members).Nodup ∧
      (∀ x, x ∈ trailerList st0.all_members ↔ x ∈ st0.all_members) ∧
      List.Sorted (fun a b => strLe a b = true) (trailerList st0.all_members) := by
  rw [get_memberships_report_eq h]
  by_cases hj : c.json_output
  · rw [if_pos hj]
    refine ⟨_, rfl, ?_, trailerList_nodup _, fun x => trailerList_mem _ x, trailerList_sorted _⟩
    have h1 : narrStream c { emit c st0
        ("\nTotal list of users / shared groups in this scope:" ::
          (trailerList st0.all_members).map (fun m => "\t" ++ m)) with
        out1 := (emit c st0
          ("\nTotal list of users / shared groups in this scope:" ::
            (trailerList st0.all_members).map (fun m => "\t" ++ m))).out1 ++
          [Out.json (emit c st0
            ("\nTotal list of users / shared groups in this scope:" ::
              (trailerList st0.all_members).map (fun m => "\t" ++ m))).member_dict] } =
        narrStream c (emit c st0
          ("\nTotal list of users / shared groups in this scope:" ::
            (trailerList st0.all_members).map (fun m => "\t" ++ m))) := by
      simp [narrStream, hj, emit]
    rw [h1, narrStream_emit]
    simp [Function.comp]
  · rw [if_neg hj]
    refine ⟨_, rfl, ?_, trailerList_nodup _, fun x => trailerList_mem _ x, trailerList_sorted _⟩
    rw [narrStream_emit]
    simp [Function.comp]

/-- Witness for C5 on a concrete snapshot. -/
theorem C5_trailer_dedup_sorted_witness :
    ∃ st0, scopesLoop unfCfg initSt mixedSnap = .ok st0 ∧
      (∃ stF, get_memberships_report unfCfg mixedSnap = .ok stF ∧
        narrStream unfCfg stF = narrStream unfCfg st0 ++
          (Out.text "\nTotal list of users / shared groups in this scope:" ::
            (trailerList st0.all_members).map (fun m => Out.text ("\t" ++ m))) ∧
        (trailerList st0.all_members).Nodup ∧
        (∀ x, x ∈ trailerList st0.all_members ↔ x ∈ st0.all_members) ∧
        List.Sorted (fun a b => strLe a b = true) (trailerList st0.all_members)) :=
  ⟨_, rfl, C5_trailer_dedup_sorted unfCfg mixedSnap _ rfl⟩

/-- Claim C6: in filtered non-verbose mode, over well-formed records, a
scope's narrative output is exactly one matching-membership header plus
line per record whose identity key equals the filter value; a scope
with no exactly-matching record contributes no output at all; and for a
`--user` filter `u ≠ ""` (with no shared-group filter) a key matches
precisely when it is string-equal to `u` — substring or partial matches
never do. -/
theorem C6_filter_exact_match (c : Config) (hf : unfilteredMode c = false)
    (hv : c.verbose = false) (sc : Scope) (ms : List RawMember)
    (hwf : ms.all wellFormed = true) (st : St) :
    ∃ st', processScope c st sc ms = .ok st' ∧
      narrStream c st' = narrStream c st ++
        ((ms.filter (fun m => matchFilter c (keyOf m))).map
          (fun m => [Out.text (matchHeader sc), Out.text (renderLine m)])).flatten ∧
      ((∀ m ∈ ms, matchFilter c (keyOf m) = false) → narrStream c st' = narrStream c st) ∧
      (∀ u name, c.user = some u → u ≠ "" → c.shared_group = none →
        (matchFilter c name = true ↔ name = u)) := by
  obtain ⟨st', hrun, hn, _, _, hd⟩ := processScope_filtered_wf hf hv sc hwf st
  refine ⟨st', hrun, ?_, ?_, ?_⟩
  · rw [hn]
    rfl
  · intro hnone
    rw [hn]
    have hfil : ms.filter (fun m => matchFilter c (keyOf m)) = [] := by
      rw [List.filter_eq_nil_iff]
      intro m hm
      rw [hnone m hm]
      intro hx
      cases hx
    rw [hfil]
    simp
  · intro u name hu hune hs
    have h1 : (u == "") = false := by
      rw [beq_eq_false_iff_ne]
      exact hune
    simp [matchFilter, hu, hs, h1]
    exact eq_comm

/-- Witness for C6 with filter `bob` over a two-record scope. -/
theorem C6_filter_exact_match_witness :
    ∃ st', processScope ⟨some "bob", none, false, false⟩ initSt demoGroup
        [RawMember.user "alice" "Alice" 40, RawMember.user "bob" "Bob" 30] = .ok st' ∧
      narrStream ⟨some "bob", none, false, false⟩ st' =
        narrStream ⟨some "bob", none, false, false⟩ initSt ++
        (([RawMember.user "alice" "Alice" 40, RawMember.user "bob" "Bob" 30].filter
            (fun m => matchFilter ⟨some "bob", none, false, false⟩ (keyOf m))).map
          (fun m => [Out.text (matchHeader demoGroup), Out.text (renderLine m)])).flatten ∧
      ((∀ m ∈ [RawMember.user "alice" "Alice" 40, RawMember.user "bob" "Bob" 30],
          matchFilter ⟨some "bob", none, false, false⟩ (keyOf m) = false) →
        narrStream ⟨some "bob", none, false, false⟩ st' =
          narrStream ⟨some "bob", none, false, false⟩ initSt) ∧
      (∀ u name, (⟨some "bob", none, false, false⟩ : Config).user = some u → u ≠ "" →
        (⟨some "bob", none, false, false⟩ : Config).shared_group = none →
        (matchFilter ⟨some "bob", none, false, false⟩ name = true ↔ name = u)) :=
  C6_filter_exact_match ⟨some "bob", none, false, false⟩ (by decide) rfl demoGroup
    [RawMember.user "alice" "Alice" 40, RawMember.user "bob" "Bob" 30] (by decide) initSt

/-- Counterexample to claim C4 as stated: two runs over the same
snapshot content with the second scope's members merely reordered (a
permutation) both succeed but print different narrative stdout — the
malformed record's line is rendered from the stale `full_name` of
whichever record came before it, so output is not reproducible under
API reordering. -/
theorem C4_counterexample :
    ordMsA.Perm ordMsB ∧
    runOk (get_memberships_report unfCfg ordSnapA) = true ∧
    runOk (get_memberships_report unfCfg ordSnapB) = true ∧
    stdoutOf (get_memberships_report unfCfg ordSnapA) ≠
      stdoutOf (get_memberships_report unfCfg ordSnapB) := by
  refine ⟨by decide, rfl, rfl, ?_⟩
  decide

/-- Claim C4 (amended): in unfiltered non-json mode, for scopes whose
records are all well formed (user/share records with in-table levels),
the membership lines are flushed as `sorted(print_msgs)` — fully
sorted lexicographically by the rendered line text, not arrival order —
and consequently two runs over per-scope-permuted snapshots print
byte-identical stdout.  The restriction to well-formed records is
forced by the counterexample above. -/
theorem C4_sorted_and_order_invariant (c : Config) (hc : unfilteredMode c = true)
    (hj : c.json_output = false) :
    (∀ (sc : Scope) (m0 : RawMember) (rest : List RawMember),
      (m0 :: rest).all wellFormed = true → ∀ st : St,
      ∃ st', processScope c st sc (m0 :: rest) = .ok st' ∧
        st'.out1 = st.out1 ++ (Out.text (scopeHeader sc) ::
          (pySorted ((m0 :: rest).map renderLine)).map Out.text) ∧
        List.Sorted (fun a b => strLe a b = true) (pySorted ((m0 :: rest).map renderLine))) ∧
    (∀ s1 s2, SnapPerm s1 s2 → snapWF s1 = true →
      ∃ st1 st2, get_memberships_report c s1 = .ok st1 ∧
        get_memberships_report c s2 = .ok st2 ∧ st1.out1 = st2.out1) := by
  have hno : ∀ st : St, narrStream c st = st.out1 := by
    intro st
    simp [narrStream, hj]
  constructor
  · intro sc m0 rest hwf st
    obtain ⟨st', hrun, hn, _, _⟩ := processScope_unfiltered_wf hc sc hwf st
    rw [hno, hno] at hn
    exact ⟨st', hrun, hn, pySorted_sorted _⟩
  · intro s1 s2 hperm hwf
    obtain ⟨r1, r2, e1, e2, hn, ha⟩ :=
      scopesLoop_perm_wf hc hperm hwf initSt initSt rfl (List.Perm.refl _)
    rw [hno, hno] at hn
    have htr : trailerList r1.all_members = trailerList r2.all_members :=
      pySorted_eq_of_perm ha.dedup
    have hrep1 := get_memberships_report_eq e1
    have hrep2 := get_memberships_report_eq e2
    rw [if_neg (by rw [hj]; intro hx; cases hx)] at hrep1
    rw [if_neg (by rw [hj]; intro hx; cases hx)] at hrep2
    refine ⟨_, _, hrep1, hrep2, ?_⟩
    rw [emit, emit, if_neg (by rw [hj]; intro hx; cases hx),
      if_neg (by rw [hj]; intro hx; cases hx)]
    simp only [hn, htr]

/-- Witness for C4 (amended) on a concrete permuted pair. -/
theorem C4_sorted_and_order_invariant_witness :
    ∃ st1 st2, get_memberships_report unfCfg wfSnapA = .ok st1 ∧
      get_memberships_report unfCfg wfSnapB = .ok st2 ∧ st1.out1 = st2.out1 :=
  (C4_sorted_and_order_invariant unfCfg rfl rfl).2 wfSnapA wfSnapB
    (List.Forall₂.cons ⟨rfl, by decide⟩ List.Forall₂.nil) (by decide)

end GitlabUtils
